import Mathlib

set_option maxHeartbeats 1000000

/-!
Shallow embedding of the Daisyworld simulation (`src/main.rs`).

Modelling conventions:
* `f64` is modelled as `ℝ`; `usize` as `ℕ`, with the two guard
  subtractions that can underflow modelled by `usizeSub` (wrapping,
  release-profile semantics) together with an explicit underflow
  predicate `usizeSubUnderflows`.
* the ambient random generator (`rand::random::<f64>()`) is modelled as
  an explicit stream `s : ℕ → ℝ` of draws plus a position counter that
  every entropy-consuming function threads through, one increment per
  `rand::random` call, in the exact order the source performs the calls.
* `Vec<Option<Daisy>>` is modelled as `List (Option Daisy)`; the
  bounds-checked read `self.daisies[i]` inside guarded code is modelled
  with `List.getD` and in-place assignment with `List.set`.
-/

structure Daisy where
  albedo : ℝ
  phenotype_volatility : ℝ

def Daisy.black : Daisy := { albedo := 0.25, phenotype_volatility := 0.05 }

def Daisy.white : Daisy := { albedo := 0.75, phenotype_volatility := 0.05 }

noncomputable def Daisy.reproduce_prob (_d : Daisy) (temperature : ℝ) : ℝ :=
  let threshold : ℝ := 17.5
  let optimal_temperature : ℝ := 295.5
  if |temperature - optimal_temperature| < threshold then
    1 - ((temperature - optimal_temperature) / threshold) ^ 2
  else
    0

/-- `Daisy::offspring`; `r` is the one random draw the method makes. -/
noncomputable def Daisy.offspring (d : Daisy) (r : ℝ) : Daisy :=
  let new_albedo := d.albedo + d.phenotype_volatility * (r - 0.5)
  { albedo := if new_albedo < 0 then 0 else if new_albedo > 1 then 1 else new_albedo,
    phenotype_volatility := d.phenotype_volatility }

structure World where
  dim : ℕ × ℕ
  daisies : List (Option Daisy)
  death_rate : ℝ

def World.size (w : World) : ℕ := w.dim.1 * w.dim.2

def USIZE : ℕ := 2 ^ 64

/-- Rust `usize` subtraction `a - b` with release-profile semantics:
wraps modulo `2^64` on underflow, agrees with truncated subtraction
when `b ≤ a`.  (All quantities in this program are far below `2^64`.) -/
def usizeSub (a b : ℕ) : ℕ := if b ≤ a then a - b else a + USIZE - b

/-- The `usize` subtraction `a - b` underflows (in a debug build this is
an arithmetic-overflow panic; in a release build the value wraps). -/
def usizeSubUnderflows (a b : ℕ) : Prop := a < b

instance (a b : ℕ) : Decidable (usizeSubUnderflows a b) :=
  inferInstanceAs (Decidable (a < b))

/-- `World::at` (named `at'` because `at` is a reserved word in Lean). -/
def World.at' (w : World) (i : ℕ) : Option Daisy :=
  if i < w.size then w.daisies.getD i none else none

def World.above (w : World) (i : ℕ) : Option Daisy :=
  if w.dim.2 ≤ i then w.at' (i - w.dim.2) else none

def World.below (w : World) (i : ℕ) : Option Daisy :=
  if i < usizeSub w.size w.dim.2 then w.at' (i + w.dim.2) else none

def World.left_of (w : World) (i : ℕ) : Option Daisy :=
  if 0 < i then w.at' (i - 1) else none

def World.right_of (w : World) (i : ℕ) : Option Daisy :=
  if i < usizeSub w.size 1 then w.at' (i + 1) else none

/-- The albedo an optional cell occupant contributes: the daisy's albedo
when present, bare ground `0.5` otherwise (`.map(|d| d.albedo).unwrap_or(0.5)`). -/
noncomputable def optAlbedo (o : Option Daisy) : ℝ :=
  (o.map Daisy.albedo).getD 0.5

noncomputable def World.temperature_field (w : World) : List ℝ :=
  let q : ℝ := 0.125
  let S : ℝ := 917.0
  let SB : ℝ := 5.67e-8
  let L : ℝ := 1.0
  ((List.range w.size).map (fun i =>
      (1 - 4 * q) * optAlbedo (w.at' i) +
        q * (optAlbedo (w.above i) + optAlbedo (w.right_of i) +
              optAlbedo (w.left_of i) + optAlbedo (w.below i)))).map
    (fun albedo => (S * L / SB * (1 - albedo)) ^ (0.25 : ℝ))

/-- The per-cell initializer `new_daisy_opt` of `World::new_randomized`;
`r` is its one random draw. -/
noncomputable def new_daisy_opt (r : ℝ) : Option Daisy :=
  if r < 0.1 then some Daisy.black
  else if r < 0.2 then some Daisy.white
  else none

/-- `World::new_randomized`: one draw per cell, in cell-index order;
returns the world together with the advanced stream position. -/
noncomputable def World.new_randomized (dim : ℕ × ℕ) (death_rate : ℝ)
    (s : ℕ → ℝ) (n : ℕ) : World × ℕ :=
  ({ dim := dim,
     daisies := (List.range (dim.1 * dim.2)).map (fun k => new_daisy_opt (s (n + k))),
     death_rate := death_rate }, n + dim.1 * dim.2)

/-- The neighbour selection of the reproduction pass: one draw `r`,
partitioned into quartiles. -/
noncomputable def chooseNeighbour (w : World) (i : ℕ) (r : ℝ) : Option Daisy :=
  if r < 0.25 then w.above i
  else if r < 0.5 then w.right_of i
  else if r < 0.75 then w.below i
  else w.left_of i

/-- The body of the reproduction loop of `World::iterate` at cell `i`:
`ds` is `new_world.daisies`, `n` the current stream position.  An
occupied source cell is skipped (`continue`) and consumes no draws; an
empty cell consumes the neighbour-choice draw `s n` and the
accept/reject draw `s (n+1)`, and on an accepted reproduction from a
present neighbour additionally the mutation draw `s (n+2)` made inside
`Daisy::offspring`.  The source computes `prob` by a match on
`neighbour` (`0.0` when absent) and then assigns
`neighbour.map(|d| d.offspring())` when the accept draw is below
`prob`; here that match on `neighbour` is hoisted outward, with
branchwise identical right-hand sides. -/
noncomputable def reproStep (w : World) (tfield : List ℝ) (s : ℕ → ℝ) (i : ℕ)
    (ds : List (Option Daisy)) (n : ℕ) : List (Option Daisy) × ℕ :=
  match w.daisies.getD i none with
  | some _ => (ds, n)
  | none =>
    match chooseNeighbour w i (s n) with
    | some d =>
      if s (n + 1) < d.reproduce_prob (tfield.getD i 0) then
        (ds.set i (some (d.offspring (s (n + 2)))), n + 3)
      else
        (ds, n + 2)
    | none =>
      if s (n + 1) < (0 : ℝ) then (ds.set i none, n + 2) else (ds, n + 2)

/-- The reproduction loop of `World::iterate`, running over cells
`i, i+1, …, i+fuel-1`. -/
noncomputable def reproAux (w : World) (tfield : List ℝ) (s : ℕ → ℝ) :
    ℕ → ℕ → List (Option Daisy) → ℕ → List (Option Daisy) × ℕ
  | 0, _, ds, n => (ds, n)
  | fuel + 1, i, ds, n =>
    let p := reproStep w tfield s i ds n
    reproAux w tfield s fuel (i + 1) p.1 p.2

/-- The reproduction pass of `World::iterate` (its first loop). -/
noncomputable def World.reproPass (w : World) (s : ℕ → ℝ) (n : ℕ) :
    List (Option Daisy) × ℕ :=
  reproAux w w.temperature_field s w.size 0 w.daisies n

/-- The body of the death loop of `World::iterate` at cell `i`: the
death draw is made (and the position advanced) only when the cell is
occupied, because `&&` short-circuits. -/
noncomputable def deathStep (death_rate : ℝ) (s : ℕ → ℝ) (i : ℕ)
    (ds : List (Option Daisy)) (n : ℕ) : List (Option Daisy) × ℕ :=
  if (ds.getD i none).isSome then
    (if s n < death_rate then ds.set i none else ds, n + 1)
  else
    (ds, n)

/-- The death loop of `World::iterate`. -/
noncomputable def deathAux (death_rate : ℝ) (s : ℕ → ℝ) :
    ℕ → ℕ → List (Option Daisy) → ℕ → List (Option Daisy) × ℕ
  | 0, _, ds, n => (ds, n)
  | fuel + 1, i, ds, n =>
    let p := deathStep death_rate s i ds n
    deathAux death_rate s fuel (i + 1) p.1 p.2

/-- `World::iterate`: reproduction pass, then death pass; returns the
new world together with the advanced stream position. -/
noncomputable def World.iterate (w : World) (s : ℕ → ℝ) (n : ℕ) : World × ℕ :=
  let tfield := w.temperature_field
  let p1 := reproAux w tfield s w.size 0 w.daisies n
  let p2 := deathAux w.death_rate s w.size 0 p1.1 p1.2
  ({ dim := w.dim, daisies := p2.1, death_rate := w.death_rate }, p2.2)

/-- The reproduction decision of `World::iterate` at cell `i`, read off
the generation-k grid `w` and temperature field `tfield` only, with
draws taken at positions `n`, `n+1`, `n+2`: the value cell `i` holds
after the reproduction pass. -/
noncomputable def reproDecision (w : World) (tfield : List ℝ) (s : ℕ → ℝ)
    (i : ℕ) (n : ℕ) : Option Daisy :=
  match w.daisies.getD i none with
  | some d => some d
  | none =>
    match chooseNeighbour w i (s n) with
    | some d =>
      if s (n + 1) < d.reproduce_prob (tfield.getD i 0) then
        some (d.offspring (s (n + 2)))
      else
        none
    | none => none

/-- Number of cell indices `< size` holding no daisy in `w`. -/
def emptyIdxCount (w : World) : ℕ :=
  ((List.range w.size).filter (fun i => (w.daisies.getD i none).isNone)).length

/-- Number of cell indices `< size` of `ds` holding a daisy. -/
def occIdxCount (size : ℕ) (ds : List (Option Daisy)) : ℕ :=
  ((List.range size).filter (fun i => (ds.getD i none).isSome)).length

/-- Number of cell indices `< size` empty in `old` but occupied in `new`
(newborn daisies of a reproduction pass). -/
def newbornCount (size : ℕ) (old new : List (Option Daisy)) : ℕ :=
  ((List.range size).filter
    (fun i => (old.getD i none).isNone && (new.getD i none).isSome)).length

/-! ### List helpers -/

theorem getD_set_ne (l : List (Option Daisy)) (i j : ℕ) (v : Option Daisy)
    (h : i ≠ j) : (l.set i v).getD j none = l.getD j none := by
  simp [List.getD_eq_getElem?_getD, List.getElem?_set_ne h]

theorem getD_set_self (l : List (Option Daisy)) (i : ℕ) (v : Option Daisy)
    (h : i < l.length) : (l.set i v).getD i none = v := by
  simp [List.getD_eq_getElem?_getD, List.getElem?_set_self, h]

theorem getD_of_all_none (l : List (Option Daisy)) (h : ∀ o ∈ l, o = none)
    (k : ℕ) : l.getD k none = none := by
  rw [List.getD_eq_getElem?_getD]
  cases hk : l[k]? with
  | none => rfl
  | some o => simp [h o (List.getElem?_mem hk)]

theorem all_none_set (l : List (Option Daisy)) (i : ℕ)
    (h : ∀ o ∈ l, o = none) : ∀ o ∈ l.set i none, o = none := by
  intro o ho
  rcases List.mem_or_eq_of_mem_set ho with h1 | h1
  · exact h o h1
  · exact h1

theorem mem_range'_iff (m s n : ℕ) : m ∈ List.range' s n ↔ s ≤ m ∧ m < s + n := by
  rw [List.mem_range']
  constructor
  · rintro ⟨i, hi, rfl⟩
    omega
  · rintro ⟨h1, h2⟩
    exact ⟨m - s, by omega, by omega⟩

/-! ### Equation lemmas for the loop bodies -/

theorem reproStep_occ (w : World) (tf : List ℝ) (s : ℕ → ℝ) (i : ℕ)
    (ds : List (Option Daisy)) (n : ℕ) (d : Daisy)
    (ho : w.daisies.getD i none = some d) : reproStep w tf s i ds n = (ds, n) := by
  unfold reproStep
  rw [ho]

theorem reproStep_empty_some (w : World) (tf : List ℝ) (s : ℕ → ℝ) (i : ℕ)
    (ds : List (Option Daisy)) (n : ℕ) (d : Daisy)
    (ho : w.daisies.getD i none = none) (hnb : chooseNeighbour w i (s n) = some d) :
    reproStep w tf s i ds n =
      if s (n + 1) < d.reproduce_prob (tf.getD i 0) then
        (ds.set i (some (d.offspring (s (n + 2)))), n + 3)
      else
        (ds, n + 2) := by
  unfold reproStep
  rw [ho, hnb]

theorem reproStep_empty_none (w : World) (tf : List ℝ) (s : ℕ → ℝ) (i : ℕ)
    (ds : List (Option Daisy)) (n : ℕ)
    (ho : w.daisies.getD i none = none) (hnb : chooseNeighbour w i (s n) = none) :
    reproStep w tf s i ds n =
      if s (n + 1) < (0 : ℝ) then (ds.set i none, n + 2) else (ds, n + 2) := by
  unfold reproStep
  rw [ho, hnb]

theorem reproDecision_occ (w : World) (tf : List ℝ) (s : ℕ → ℝ) (i n : ℕ)
    (d : Daisy) (ho : w.daisies.getD i none = some d) :
    reproDecision w tf s i n = some d := by
  unfold reproDecision
  rw [ho]

theorem reproDecision_empty_some (w : World) (tf : List ℝ) (s : ℕ → ℝ) (i n : ℕ)
    (d : Daisy) (ho : w.daisies.getD i none = none)
    (hnb : chooseNeighbour w i (s n) = some d) :
    reproDecision w tf s i n =
      if s (n + 1) < d.reproduce_prob (tf.getD i 0) then
        some (d.offspring (s (n + 2)))
      else
        none := by
  unfold reproDecision
  rw [ho, hnb]

theorem reproDecision_empty_none (w : World) (tf : List ℝ) (s : ℕ → ℝ) (i n : ℕ)
    (ho : w.daisies.getD i none = none) (hnb : chooseNeighbour w i (s n) = none) :
    reproDecision w tf s i n = none := by
  unfold reproDecision
  rw [ho, hnb]

theorem deathStep_occ (dr : ℝ) (s : ℕ → ℝ) (i : ℕ) (ds : List (Option Daisy))
    (n : ℕ) (ho : (ds.getD i none).isSome) :
    deathStep dr s i ds n = (if s n < dr then ds.set i none else ds, n + 1) := by
  unfold deathStep
  rw [if_pos ho]

theorem deathStep_empty (dr : ℝ) (s : ℕ → ℝ) (i : ℕ) (ds : List (Option Daisy))
    (n : ℕ) (ho : ¬ (ds.getD i none).isSome) :
    deathStep dr s i ds n = (ds, n) := by
  unfold deathStep
  rw [if_neg ho]

/-! ### Basic facts about the loop bodies -/

theorem reproStep_length (w : World) (tf : List ℝ) (s : ℕ → ℝ) (i : ℕ)
    (ds : List (Option Daisy)) (n : ℕ) :
    (reproStep w tf s i ds n).1.length = ds.length := by
  rcases ho : w.daisies.getD i none with _ | d
  · rcases hnb : chooseNeighbour w i (s n) with _ | d
    · rw [reproStep_empty_none w tf s i ds n ho hnb]
      split <;> simp
    · rw [reproStep_empty_some w tf s i ds n d ho hnb]
      split <;> simp
  · rw [reproStep_occ w tf s i ds n d ho]

theorem reproStep_getD_ne (w : World) (tf : List ℝ) (s : ℕ → ℝ) (i : ℕ)
    (ds : List (Option Daisy)) (n j : ℕ) (h : j ≠ i) :
    (reproStep w tf s i ds n).1.getD j none = ds.getD j none := by
  rcases ho : w.daisies.getD i none with _ | d
  · rcases hnb : chooseNeighbour w i (s n) with _ | d
    · rw [reproStep_empty_none w tf s i ds n ho hnb]
      split
      · exact getD_set_ne _ i j _ (Ne.symm h)
      · rfl
    · rw [reproStep_empty_some w tf s i ds n d ho hnb]
      split
      · exact getD_set_ne _ i j _ (Ne.symm h)
      · rfl
  · rw [reproStep_occ w tf s i ds n d ho]

theorem reproStep_getD_self (w : World) (tf : List ℝ) (s : ℕ → ℝ) (i : ℕ)
    (ds : List (Option Daisy)) (n : ℕ) (hlen : i < ds.length)
    (hagree : ds.getD i none = w.daisies.getD i none) :
    (reproStep w tf s i ds n).1.getD i none = reproDecision w tf s i n := by
  rcases ho : w.daisies.getD i none with _ | d
  · rcases hnb : chooseNeighbour w i (s n) with _ | d
    · rw [reproStep_empty_none w tf s i ds n ho hnb,
        reproDecision_empty_none w tf s i n ho hnb]
      split
      · exact getD_set_self _ _ _ hlen
      · rw [hagree, ho]
    · rw [reproStep_empty_some w tf s i ds n d ho hnb,
        reproDecision_empty_some w tf s i n d ho hnb]
      split
      · exact getD_set_self _ _ _ hlen
      · rw [hagree, ho]
  · rw [reproStep_occ w tf s i ds n d ho, reproDecision_occ w tf s i n d ho,
      hagree, ho]

theorem reproStep_snd_indep (w : World) (tf : List ℝ) (s : ℕ → ℝ) (i : ℕ)
    (ds ds' : List (Option Daisy)) (n : ℕ) :
    (reproStep w tf s i ds n).2 = (reproStep w tf s i ds' n).2 := by
  rcases ho : w.daisies.getD i none with _ | d
  · rcases hnb : chooseNeighbour w i (s n) with _ | d
    · rw [reproStep_empty_none w tf s i ds n ho hnb,
        reproStep_empty_none w tf s i ds' n ho hnb]
      split <;> rfl
    · rw [reproStep_empty_some w tf s i ds n d ho hnb,
        reproStep_empty_some w tf s i ds' n d ho hnb]
      split <;> rfl
  · rw [reproStep_occ w tf s i ds n d ho, reproStep_occ w tf s i ds' n d ho]

theorem reproStep_snd_bounds (w : World) (tf : List ℝ) (s : ℕ → ℝ) (i : ℕ)
    (ds : List (Option Daisy)) (n : ℕ) :
    n ≤ (reproStep w tf s i ds n).2 ∧ (reproStep w tf s i ds n).2 ≤ n + 3 := by
  rcases ho : w.daisies.getD i none with _ | d
  · rcases hnb : chooseNeighbour w i (s n) with _ | d
    · rw [reproStep_empty_none w tf s i ds n ho hnb]
      split <;> omega
    · rw [reproStep_empty_some w tf s i ds n d ho hnb]
      split <;> omega
  · rw [reproStep_occ w tf s i ds n d ho]
    omega

theorem reproStep_agree (w : World) (tf : List ℝ) (s1 s2 : ℕ → ℝ) (i : ℕ)
    (ds : List (Option Daisy)) (n : ℕ)
    (h : ∀ k, n ≤ k → k < (reproStep w tf s1 i ds n).2 → s1 k = s2 k) :
    reproStep w tf s1 i ds n = reproStep w tf s2 i ds n := by
  rcases ho : w.daisies.getD i none with _ | d
  · have hge : n + 2 ≤ (reproStep w tf s1 i ds n).2 := by
      rcases hnb : chooseNeighbour w i (s1 n) with _ | d
      · rw [reproStep_empty_none w tf s1 i ds n ho hnb]
        split <;> omega
      · rw [reproStep_empty_some w tf s1 i ds n d ho hnb]
        split <;> omega
    have h0 : s2 n = s1 n := (h n le_rfl (by omega)).symm
    have h1 : s2 (n + 1) = s1 (n + 1) := (h (n + 1) (by omega) (by omega)).symm
    rcases hnb : chooseNeighbour w i (s1 n) with _ | d
    · rw [reproStep_empty_none w tf s1 i ds n ho hnb,
        reproStep_empty_none w tf s2 i ds n ho (by rw [h0, hnb]), h1]
    · by_cases hsp : s1 (n + 1) < d.reproduce_prob (tf.getD i 0)
      · have hpos : (reproStep w tf s1 i ds n).2 = n + 3 := by
          rw [reproStep_empty_some w tf s1 i ds n d ho hnb, if_pos hsp]
        have h2 : s2 (n + 2) = s1 (n + 2) := (h (n + 2) (by omega) (by omega)).symm
        rw [reproStep_empty_some w tf s1 i ds n d ho hnb,
          reproStep_empty_some w tf s2 i ds n d ho (by rw [h0, hnb]), h1, h2]
      · rw [reproStep_empty_some w tf s1 i ds n d ho hnb,
          reproStep_empty_some w tf s2 i ds n d ho (by rw [h0, hnb]), h1,
          if_neg hsp, if_neg hsp]
  · rw [reproStep_occ w tf s1 i ds n d ho, reproStep_occ w tf s2 i ds n d ho]

theorem reproStep_snd_formula (w : World) (tf : List ℝ) (s : ℕ → ℝ) (i : ℕ)
    (ds : List (Option Daisy)) (n : ℕ) (hlen : i < ds.length)
    (hag : ds.getD i none = w.daisies.getD i none) :
    (reproStep w tf s i ds n).2 =
      n + (if (w.daisies.getD i none).isNone then
             2 + (if ((reproStep w tf s i ds n).1.getD i none).isSome then 1 else 0)
           else 0) := by
  rcases ho : w.daisies.getD i none with _ | d
  · have h2 : ds.getD i none = none := hag.trans ho
    simp only [List.getD_eq_getElem?_getD] at h2
    rcases hnb : chooseNeighbour w i (s n) with _ | d
    · rw [reproStep_empty_none w tf s i ds n ho hnb]
      split
      · simp [List.getD_eq_getElem?_getD, List.getElem?_set_self hlen]
      · simp [List.getD_eq_getElem?_getD, h2]
    · rw [reproStep_empty_some w tf s i ds n d ho hnb]
      split
      · simp [List.getD_eq_getElem?_getD, List.getElem?_set_self hlen]
      · simp [List.getD_eq_getElem?_getD, h2]
  · rw [reproStep_occ w tf s i ds n d ho]
    simp

/-! ### Facts about the reproduction loop -/

theorem reproAux_length (w : World) (tf : List ℝ) (s : ℕ → ℝ) (fuel : ℕ) :
    ∀ (i : ℕ) (ds : List (Option Daisy)) (n : ℕ),
      (reproAux w tf s fuel i ds n).1.length = ds.length := by
  induction fuel with
  | zero => intro i ds n; rfl
  | succ fuel ih =>
    intro i ds n
    simp only [reproAux]
    rw [ih (i + 1) _ _, reproStep_length w tf s i ds n]

theorem reproAux_getD_lt (w : World) (tf : List ℝ) (s : ℕ → ℝ) (fuel : ℕ) :
    ∀ (i : ℕ) (ds : List (Option Daisy)) (n j : ℕ), j < i →
      (reproAux w tf s fuel i ds n).1.getD j none = ds.getD j none := by
  induction fuel with
  | zero => intro i ds n j _; rfl
  | succ fuel ih =>
    intro i ds n j hj
    simp only [reproAux]
    rw [ih (i + 1) _ _ j (by omega), reproStep_getD_ne w tf s i ds n j (by omega)]

theorem reproAux_getD_ge (w : World) (tf : List ℝ) (s : ℕ → ℝ) (fuel : ℕ) :
    ∀ (i : ℕ) (ds : List (Option Daisy)) (n j : ℕ), i + fuel ≤ j →
      (reproAux w tf s fuel i ds n).1.getD j none = ds.getD j none := by
  induction fuel with
  | zero => intro i ds n j _; rfl
  | succ fuel ih =>
    intro i ds n j hj
    simp only [reproAux]
    rw [ih (i + 1) _ _ j (by omega), reproStep_getD_ne w tf s i ds n j (by omega)]

theorem reproAux_add (w : World) (tf : List ℝ) (s : ℕ → ℝ) (a : ℕ) :
    ∀ (b i : ℕ) (ds : List (Option Daisy)) (n : ℕ),
      reproAux w tf s (a + b) i ds n =
        reproAux w tf s b (i + a) (reproAux w tf s a i ds n).1
          (reproAux w tf s a i ds n).2 := by
  induction a with
  | zero => intro b i ds n; simp [reproAux]
  | succ a ih =>
    intro b i ds n
    have h1 : a + 1 + b = (a + b) + 1 := by omega
    rw [h1]
    simp only [reproAux]
    rw [ih b (i + 1) _ _]
    have h2 : i + 1 + a = i + (a + 1) := by omega
    rw [h2]

theorem reproAux_snd_ge (w : World) (tf : List ℝ) (s : ℕ → ℝ) (fuel : ℕ) :
    ∀ (i : ℕ) (ds : List (Option Daisy)) (n : ℕ),
      n ≤ (reproAux w tf s fuel i ds n).2 := by
  induction fuel with
  | zero => intro i ds n; exact le_rfl
  | succ fuel ih =>
    intro i ds n
    simp only [reproAux]
    exact le_trans (reproStep_snd_bounds w tf s i ds n).1 (ih (i + 1) _ _)

theorem reproAux_getD_eq (w : World) (tf : List ℝ) (s : ℕ → ℝ) (fuel i : ℕ)
    (ds : List (Option Daisy)) (n j : ℕ) (h1 : i ≤ j) (h2 : j < i + fuel)
    (hlen : j < ds.length)
    (hag : ds.getD j none = w.daisies.getD j none) :
    (reproAux w tf s fuel i ds n).1.getD j none =
      reproDecision w tf s j ((reproAux w tf s (j - i) i ds n).2) := by
  have hab : fuel = (j - i) + ((fuel - (j - i) - 1) + 1) := by omega
  rw [hab, reproAux_add w tf s (j - i) _ i ds n]
  have hij : i + (j - i) = j := by omega
  rw [hij]
  simp only [reproAux]
  rw [reproAux_getD_lt w tf s _ (j + 1) _ _ j (by omega)]
  exact reproStep_getD_self w tf s j _ _
    (by rw [reproAux_length]; exact hlen)
    (by rw [reproAux_getD_ge w tf s _ i ds n j (by omega)]; exact hag)

theorem reproAux_agree (w : World) (tf : List ℝ) (s1 s2 : ℕ → ℝ) (fuel : ℕ) :
    ∀ (i : ℕ) (ds : List (Option Daisy)) (n : ℕ),
      (∀ k, n ≤ k → k < (reproAux w tf s1 fuel i ds n).2 → s1 k = s2 k) →
      reproAux w tf s1 fuel i ds n = reproAux w tf s2 fuel i ds n := by
  induction fuel with
  | zero => intro i ds n _; rfl
  | succ fuel ih =>
    intro i ds n h
    obtain ⟨hb1, hb2⟩ := reproStep_snd_bounds w tf s1 i ds n
    have heq : reproAux w tf s1 (fuel + 1) i ds n =
        reproAux w tf s1 fuel (i + 1) (reproStep w tf s1 i ds n).1
          (reproStep w tf s1 i ds n).2 := rfl
    have heq2 : reproAux w tf s2 (fuel + 1) i ds n =
        reproAux w tf s2 fuel (i + 1) (reproStep w tf s2 i ds n).1
          (reproStep w tf s2 i ds n).2 := rfl
    have hge : (reproStep w tf s1 i ds n).2 ≤
        (reproAux w tf s1 fuel (i + 1) (reproStep w tf s1 i ds n).1
          (reproStep w tf s1 i ds n).2).2 :=
      reproAux_snd_ge w tf s1 fuel (i + 1) _ _
    have hstep : reproStep w tf s1 i ds n = reproStep w tf s2 i ds n := by
      refine reproStep_agree w tf s1 s2 i ds n (fun k hk1 hk2 => h k hk1 ?_)
      rw [heq]
      omega
    rw [heq, heq2, ← hstep]
    refine ih (i + 1) _ _ (fun k hk1 hk2 => h k (by omega) ?_)
    rw [heq]
    exact hk2

theorem reproAux_snd_count (w : World) (tf : List ℝ) (s : ℕ → ℝ) (fuel : ℕ) :
    ∀ (i : ℕ) (ds : List (Option Daisy)) (n : ℕ),
      i + fuel ≤ ds.length →
      (∀ k, i ≤ k → ds.getD k none = w.daisies.getD k none) →
      (reproAux w tf s fuel i ds n).2 =
        n + 2 * (List.range' i fuel).countP (fun j => (w.daisies.getD j none).isNone)
          + (List.range' i fuel).countP
              (fun j => (w.daisies.getD j none).isNone &&
                ((reproAux w tf s fuel i ds n).1.getD j none).isSome) := by
  induction fuel with
  | zero => intro i ds n _ _; simp [reproAux]
  | succ fuel ih =>
    intro i ds n hlen hag
    have hP1len : (reproStep w tf s i ds n).1.length = ds.length :=
      reproStep_length w tf s i ds n
    have hag' : ∀ k, i + 1 ≤ k →
        (reproStep w tf s i ds n).1.getD k none = w.daisies.getD k none := by
      intro k hk
      rw [reproStep_getD_ne w tf s i ds n k (by omega)]
      exact hag k (by omega)
    have hih := ih (i + 1) (reproStep w tf s i ds n).1 (reproStep w tf s i ds n).2
      (by rw [hP1len]; omega) hag'
    have hstep := reproStep_snd_formula w tf s i ds n (by omega) (hag i le_rfl)
    have hgetDi : (reproAux w tf s fuel (i + 1) (reproStep w tf s i ds n).1
        (reproStep w tf s i ds n).2).1.getD i none =
        (reproStep w tf s i ds n).1.getD i none :=
      reproAux_getD_lt w tf s fuel (i + 1) _ _ i (by omega)
    simp only [reproAux]
    rw [List.range'_succ, List.countP_cons, List.countP_cons, hih, hgetDi, hstep]
    cases hA : (w.daisies.getD i none).isNone <;>
      cases hB : ((reproStep w tf s i ds n).1.getD i none).isSome <;>
        simp [hA, hB] <;> omega

/-! ### Facts about the death loop -/

theorem deathStep_length (dr : ℝ) (s : ℕ → ℝ) (i : ℕ)
    (ds : List (Option Daisy)) (n : ℕ) :
    (deathStep dr s i ds n).1.length = ds.length := by
  unfold deathStep
  split
  · split <;> simp
  · rfl

theorem deathStep_getD_ne (dr : ℝ) (s : ℕ → ℝ) (i : ℕ)
    (ds : List (Option Daisy)) (n j : ℕ) (h : j ≠ i) :
    (deathStep dr s i ds n).1.getD j none = ds.getD j none := by
  unfold deathStep
  split
  · split
    · exact getD_set_ne _ i j _ (Ne.symm h)
    · rfl
  · rfl

theorem deathStep_snd_bounds (dr : ℝ) (s : ℕ → ℝ) (i : ℕ)
    (ds : List (Option Daisy)) (n : ℕ) :
    n ≤ (deathStep dr s i ds n).2 ∧ (deathStep dr s i ds n).2 ≤ n + 1 := by
  unfold deathStep
  split
  · omega
  · omega

theorem getD_isSome_lt_length (ds : List (Option Daisy)) (i : ℕ)
    (h : (ds.getD i none).isSome) : i < ds.length := by
  by_contra hcon
  have hnone : ds.getD i none = none := by
    rw [List.getD_eq_getElem?_getD, List.getElem?_eq_none (by omega)]
    rfl
  rw [hnone] at h
  cases h

theorem deathStep_getD_self (dr : ℝ) (s : ℕ → ℝ) (i : ℕ)
    (ds : List (Option Daisy)) (n : ℕ) :
    (deathStep dr s i ds n).1.getD i none =
      if (ds.getD i none).isSome ∧ s n < dr then none else ds.getD i none := by
  by_cases hA : (ds.getD i none).isSome
  · rw [deathStep_occ dr s i ds n hA]
    by_cases hd : s n < dr
    · have hlen : i < ds.length := getD_isSome_lt_length ds i hA
      rw [if_pos hd, if_pos ⟨hA, hd⟩]
      exact getD_set_self _ _ _ hlen
    · rw [if_neg hd, if_neg (by tauto)]
  · rw [deathStep_empty dr s i ds n hA, if_neg (by tauto)]

theorem deathStep_snd_formula (dr : ℝ) (s : ℕ → ℝ) (i : ℕ)
    (ds : List (Option Daisy)) (n : ℕ) :
    (deathStep dr s i ds n).2 = n + (if (ds.getD i none).isSome then 1 else 0) := by
  by_cases hA : (ds.getD i none).isSome
  · rw [deathStep_occ dr s i ds n hA, if_pos hA]
  · rw [deathStep_empty dr s i ds n hA, if_neg hA]
    rfl

theorem deathStep_agree (dr : ℝ) (s1 s2 : ℕ → ℝ) (i : ℕ)
    (ds : List (Option Daisy)) (n : ℕ)
    (h : ∀ k, n ≤ k → k < (deathStep dr s1 i ds n).2 → s1 k = s2 k) :
    deathStep dr s1 i ds n = deathStep dr s2 i ds n := by
  by_cases hA : (ds.getD i none).isSome
  · have h0 : s2 n = s1 n := by
      refine (h n le_rfl ?_).symm
      rw [deathStep_occ dr s1 i ds n hA]
      omega
    rw [deathStep_occ dr s1 i ds n hA, deathStep_occ dr s2 i ds n hA, h0]
  · rw [deathStep_empty dr s1 i ds n hA, deathStep_empty dr s2 i ds n hA]

theorem deathAux_length (dr : ℝ) (s : ℕ → ℝ) (fuel : ℕ) :
    ∀ (i : ℕ) (ds : List (Option Daisy)) (n : ℕ),
      (deathAux dr s fuel i ds n).1.length = ds.length := by
  induction fuel with
  | zero => intro i ds n; rfl
  | succ fuel ih =>
    intro i ds n
    simp only [deathAux]
    rw [ih (i + 1) _ _, deathStep_length dr s i ds n]

theorem deathAux_getD_lt (dr : ℝ) (s : ℕ → ℝ) (fuel : ℕ) :
    ∀ (i : ℕ) (ds : List (Option Daisy)) (n j : ℕ), j < i →
      (deathAux dr s fuel i ds n).1.getD j none = ds.getD j none := by
  induction fuel with
  | zero => intro i ds n j _; rfl
  | succ fuel ih =>
    intro i ds n j hj
    simp only [deathAux]
    rw [ih (i + 1) _ _ j (by omega), deathStep_getD_ne dr s i ds n j (by omega)]

theorem deathAux_getD_ge (dr : ℝ) (s : ℕ → ℝ) (fuel : ℕ) :
    ∀ (i : ℕ) (ds : List (Option Daisy)) (n j : ℕ), i + fuel ≤ j →
      (deathAux dr s fuel i ds n).1.getD j none = ds.getD j none := by
  induction fuel with
  | zero => intro i ds n j _; rfl
  | succ fuel ih =>
    intro i ds n j hj
    simp only [deathAux]
    rw [ih (i + 1) _ _ j (by omega), deathStep_getD_ne dr s i ds n j (by omega)]

theorem deathAux_add (dr : ℝ) (s : ℕ → ℝ) (a : ℕ) :
    ∀ (b i : ℕ) (ds : List (Option Daisy)) (n : ℕ),
      deathAux dr s (a + b) i ds n =
        deathAux dr s b (i + a) (deathAux dr s a i ds n).1
          (deathAux dr s a i ds n).2 := by
  induction a with
  | zero => intro b i ds n; simp [deathAux]
  | succ a ih =>
    intro b i ds n
    have h1 : a + 1 + b = (a + b) + 1 := by omega
    rw [h1]
    simp only [deathAux]
    rw [ih b (i + 1) _ _]
    have h2 : i + 1 + a = i + (a + 1) := by omega
    rw [h2]

theorem deathAux_snd_ge (dr : ℝ) (s : ℕ → ℝ) (fuel : ℕ) :
    ∀ (i : ℕ) (ds : List (Option Daisy)) (n : ℕ),
      n ≤ (deathAux dr s fuel i ds n).2 := by
  induction fuel with
  | zero => intro i ds n; exact le_rfl
  | succ fuel ih =>
    intro i ds n
    simp only [deathAux]
    exact le_trans (deathStep_snd_bounds dr s i ds n).1 (ih (i + 1) _ _)

theorem deathAux_getD_eq (dr : ℝ) (s : ℕ → ℝ) (fuel i : ℕ)
    (ds : List (Option Daisy)) (n j : ℕ) (h1 : i ≤ j) (h2 : j < i + fuel) :
    (deathAux dr s fuel i ds n).1.getD j none =
      if (ds.getD j none).isSome ∧ s ((deathAux dr s (j - i) i ds n).2) < dr then
        none
      else
        ds.getD j none := by
  have hab : fuel = (j - i) + ((fuel - (j - i) - 1) + 1) := by omega
  rw [hab, deathAux_add dr s (j - i) _ i ds n]
  have hij : i + (j - i) = j := by omega
  rw [hij]
  simp only [deathAux]
  rw [deathAux_getD_lt dr s _ (j + 1) _ _ j (by omega), deathStep_getD_self dr s j _ _,
    deathAux_getD_ge dr s _ i ds n j (by omega)]

theorem deathAux_agree (dr : ℝ) (s1 s2 : ℕ → ℝ) (fuel : ℕ) :
    ∀ (i : ℕ) (ds : List (Option Daisy)) (n : ℕ),
      (∀ k, n ≤ k → k < (deathAux dr s1 fuel i ds n).2 → s1 k = s2 k) →
      deathAux dr s1 fuel i ds n = deathAux dr s2 fuel i ds n := by
  induction fuel with
  | zero => intro i ds n _; rfl
  | succ fuel ih =>
    intro i ds n h
    obtain ⟨hb1, hb2⟩ := deathStep_snd_bounds dr s1 i ds n
    have heq : deathAux dr s1 (fuel + 1) i ds n =
        deathAux dr s1 fuel (i + 1) (deathStep dr s1 i ds n).1
          (deathStep dr s1 i ds n).2 := rfl
    have heq2 : deathAux dr s2 (fuel + 1) i ds n =
        deathAux dr s2 fuel (i + 1) (deathStep dr s2 i ds n).1
          (deathStep dr s2 i ds n).2 := rfl
    have hge : (deathStep dr s1 i ds n).2 ≤
        (deathAux dr s1 fuel (i + 1) (deathStep dr s1 i ds n).1
          (deathStep dr s1 i ds n).2).2 :=
      deathAux_snd_ge dr s1 fuel (i + 1) _ _
    have hstep : deathStep dr s1 i ds n = deathStep dr s2 i ds n := by
      refine deathStep_agree dr s1 s2 i ds n (fun k hk1 hk2 => h k hk1 ?_)
      rw [heq]
      omega
    rw [heq, heq2, ← hstep]
    refine ih (i + 1) _ _ (fun k hk1 hk2 => h k (by omega) ?_)
    rw [heq]
    exact hk2

theorem deathAux_snd_count (dr : ℝ) (s : ℕ → ℝ) (fuel : ℕ) :
    ∀ (i : ℕ) (ds : List (Option Daisy)) (n : ℕ),
      (deathAux dr s fuel i ds n).2 =
        n + (List.range' i fuel).countP (fun j => (ds.getD j none).isSome) := by
  induction fuel with
  | zero => intro i ds n; simp [deathAux]
  | succ fuel ih =>
    intro i ds n
    simp only [deathAux]
    rw [List.range'_succ, List.countP_cons, ih (i + 1) _ _]
    have hcong : (List.range' (i + 1) fuel).countP
        (fun j => ((deathStep dr s i ds n).1.getD j none).isSome) =
        (List.range' (i + 1) fuel).countP (fun j => (ds.getD j none).isSome) := by
      refine List.countP_congr ?_
      intro j hj
      rw [mem_range'_iff] at hj
      rw [deathStep_getD_ne dr s i ds n j (by omega)]
    rw [hcong, deathStep_snd_formula dr s i ds n]
    cases hA : (ds.getD i none).isSome <;> simp [hA] <;> omega

/-! ### Preservation of the all-empty grid -/

theorem at'_all_none (w : World) (h : ∀ o ∈ w.daisies, o = none) (j : ℕ) :
    w.at' j = none := by
  unfold World.at'
  split
  · exact getD_of_all_none w.daisies h j
  · rfl

theorem chooseNeighbour_all_none (w : World) (i : ℕ) (r : ℝ)
    (h : ∀ o ∈ w.daisies, o = none) : chooseNeighbour w i r = none := by
  have habove : w.above i = none := by
    unfold World.above
    split
    · exact at'_all_none w h _
    · rfl
  have hbelow : w.below i = none := by
    unfold World.below
    split
    · exact at'_all_none w h _
    · rfl
  have hleft : w.left_of i = none := by
    unfold World.left_of
    split
    · exact at'_all_none w h _
    · rfl
  have hright : w.right_of i = none := by
    unfold World.right_of
    split
    · exact at'_all_none w h _
    · rfl
  unfold chooseNeighbour
  split_ifs <;> assumption

theorem reproStep_all_none (w : World) (tf : List ℝ) (s : ℕ → ℝ) (i : ℕ)
    (ds : List (Option Daisy)) (n : ℕ)
    (hw : ∀ o ∈ w.daisies, o = none) (hds : ∀ o ∈ ds, o = none) :
    ∀ o ∈ (reproStep w tf s i ds n).1, o = none := by
  rw [reproStep_empty_none w tf s i ds n (getD_of_all_none _ hw i)
    (chooseNeighbour_all_none w i (s n) hw)]
  split
  · exact all_none_set ds i hds
  · exact hds

theorem reproAux_all_none (w : World) (tf : List ℝ) (s : ℕ → ℝ) (fuel : ℕ)
    (hw : ∀ o ∈ w.daisies, o = none) :
    ∀ (i : ℕ) (ds : List (Option Daisy)) (n : ℕ), (∀ o ∈ ds, o = none) →
      ∀ o ∈ (reproAux w tf s fuel i ds n).1, o = none := by
  induction fuel with
  | zero => intro i ds n hds; exact hds
  | succ fuel ih =>
    intro i ds n hds
    simp only [reproAux]
    exact ih (i + 1) _ _ (reproStep_all_none w tf s i ds n hw hds)

theorem deathStep_all_none (dr : ℝ) (s : ℕ → ℝ) (i : ℕ)
    (ds : List (Option Daisy)) (n : ℕ) (hds : ∀ o ∈ ds, o = none) :
    ∀ o ∈ (deathStep dr s i ds n).1, o = none := by
  rw [deathStep_empty dr s i ds n (by rw [getD_of_all_none _ hds i]; exact fun h => nomatch h)]
  exact hds

theorem deathAux_all_none (dr : ℝ) (s : ℕ → ℝ) (fuel : ℕ) :
    ∀ (i : ℕ) (ds : List (Option Daisy)) (n : ℕ), (∀ o ∈ ds, o = none) →
      ∀ o ∈ (deathAux dr s fuel i ds n).1, o = none := by
  induction fuel with
  | zero => intro i ds n hds; exact hds
  | succ fuel ih =>
    intro i ds n hds
    simp only [deathAux]
    exact ih (i + 1) _ _ (deathStep_all_none dr s i ds n hds)

/-! ### Unfolding `iterate` -/

theorem iterate_def (w : World) (s : ℕ → ℝ) (n : ℕ) :
    w.iterate s n =
      ({ dim := w.dim,
         daisies := (deathAux w.death_rate s w.size 0 (w.reproPass s n).1
           (w.reproPass s n).2).1,
         death_rate := w.death_rate },
       (deathAux w.death_rate s w.size 0 (w.reproPass s n).1
         (w.reproPass s n).2).2) := rfl

/-! ### Fourth-root bounds -/

theorem rpow_quarter_pow (x : ℝ) (hx : 0 ≤ x) : (x ^ (0.25 : ℝ)) ^ (4 : ℕ) = x := by
  rw [show (0.25 : ℝ) = ((4 : ℕ) : ℝ)⁻¹ by norm_num]
  exact Real.rpow_inv_natCast_pow hx (by norm_num)

theorem rpow_quarter_bounds {x a b : ℝ} (hx : 0 ≤ x) (hb : 0 ≤ b)
    (hax : a ^ (4 : ℕ) < x) (hxb : x < b ^ (4 : ℕ)) :
    a < x ^ (0.25 : ℝ) ∧ x ^ (0.25 : ℝ) < b := by
  have htnn : 0 ≤ x ^ (0.25 : ℝ) := Real.rpow_nonneg hx _
  have h4 : (x ^ (0.25 : ℝ)) ^ (4 : ℕ) = x := rpow_quarter_pow x hx
  constructor
  · refine lt_of_pow_lt_pow_left 4 htnn ?_
    rw [h4]
    exact hax
  · refine lt_of_pow_lt_pow_left 4 hb ?_
    rw [h4]
    exact hxb

theorem reproduce_prob_pos (d : Daisy) (t : ℝ) (h1 : 278 < t) (h2 : t < 313) :
    0 < d.reproduce_prob t := by
  simp only [Daisy.reproduce_prob]
  have hband : |t - 295.5| < 17.5 := by
    rw [abs_lt]
    constructor <;> linarith
  rw [if_pos hband]
  have hsq : (t - 295.5) ^ 2 < 17.5 ^ 2 := by nlinarith
  have hlt : ((t - 295.5) / 17.5) ^ 2 < 1 := by
    rw [div_pow, div_lt_one (by norm_num)]
    exact hsq
  linarith

/-! ### Concrete worlds and streams used in witnesses and counterexamples -/

def zeroStream : ℕ → ℝ := fun _ => 0

def halfStream : ℕ → ℝ := fun _ => 0.5

/-- A 2-row, 1-column grid (spec naming: width 1, height 2), fully occupied. -/
def cexWorldC1 : World :=
  { dim := (1, 2), daisies := [some Daisy.black, some Daisy.black], death_rate := 0.3 }

/-- A zero-width grid. -/
def cexWorldC8 : World := { dim := (0, 1), daisies := [], death_rate := 0.3 }

/-- A 1×1 grid with its single cell empty. -/
def worldOneEmpty : World := { dim := (1, 1), daisies := [none], death_rate := 0.3 }

/-- A 1×1 grid with its single cell occupied. -/
def worldOneBlack : World :=
  { dim := (1, 1), daisies := [some Daisy.black], death_rate := 0.3 }

/-- A 2-cell grid (dim (2,1)): cell 0 occupied by a black daisy, cell 1 empty. -/
def cexWorldC2 : World :=
  { dim := (2, 1), daisies := [some Daisy.black, none], death_rate := 0.3 }

/-! ### Claim theorems -/

/-- C4: for every daisy and temperature `t`, `reproduce_prob t` is `0`
when `|t - 295.5| ≥ 17.5`, is `1 - ((t - 295.5)/17.5)^2` otherwise, is
exactly `1` at `t = 295.5`, and always lies in `[0, 1]`. -/
theorem c4_reproduce_prob (d : Daisy) (t : ℝ) :
    (17.5 ≤ |t - 295.5| → d.reproduce_prob t = 0) ∧
    (|t - 295.5| < 17.5 → d.reproduce_prob t = 1 - ((t - 295.5) / 17.5) ^ 2) ∧
    d.reproduce_prob 295.5 = 1 ∧
    0 ≤ d.reproduce_prob t ∧ d.reproduce_prob t ≤ 1 := by
  simp only [Daisy.reproduce_prob]
  refine ⟨fun h => ?_, fun h => ?_, ?_, ?_, ?_⟩
  · rw [if_neg (not_lt.mpr h)]
  · rw [if_pos h]
  · norm_num
  · split
    · rename_i hband
      obtain ⟨hl, hr⟩ := abs_lt.mp hband
      have hsq : (t - 295.5) ^ 2 < 17.5 ^ 2 := by nlinarith
      have hlt : ((t - 295.5) / 17.5) ^ 2 < 1 := by
        rw [div_pow, div_lt_one (by norm_num)]
        exact hsq
      linarith
    · exact le_rfl
  · split
    · have hge : 0 ≤ ((t - 295.5) / 17.5) ^ 2 := sq_nonneg _
      linarith
    · norm_num

/-- C4 witness: the theorem applied at the concrete daisy `black` and
the temperatures `313` (outside the band) and `295.5` (the optimum). -/
theorem c4_reproduce_prob_witness :
    ((17.5 : ℝ) ≤ |(313 : ℝ) - 295.5| ∧ Daisy.black.reproduce_prob 313 = 0) ∧
    (|(295.5 : ℝ) - 295.5| < 17.5 ∧
      Daisy.black.reproduce_prob 295.5 = 1 - ((295.5 - 295.5) / 17.5) ^ 2) :=
  ⟨⟨by rw [abs_of_nonneg (by norm_num : (0 : ℝ) ≤ 313 - 295.5)]; norm_num,
    (c4_reproduce_prob Daisy.black 313).1
      (by rw [abs_of_nonneg (by norm_num : (0 : ℝ) ≤ 313 - 295.5)]; norm_num)⟩,
   ⟨by norm_num, (c4_reproduce_prob Daisy.black 295.5).2.1 (by norm_num)⟩⟩

/-- C5: for every daisy and draw `r ∈ [0,1)`, `offspring r` has albedo
`albedo + volatility*(r - 0.5)` clamped to `[0,1]` (hence always in
`[0,1]`) and the parent's volatility unchanged. -/
theorem c5_offspring (d : Daisy) (r : ℝ) (h0 : 0 ≤ r) (h1 : r < 1) :
    (d.offspring r).albedo =
      max 0 (min 1 (d.albedo + d.phenotype_volatility * (r - 0.5))) ∧
    0 ≤ (d.offspring r).albedo ∧ (d.offspring r).albedo ≤ 1 ∧
    (d.offspring r).phenotype_volatility = d.phenotype_volatility := by
  simp only [Daisy.offspring]
  refine ⟨?_, ?_, ?_, trivial⟩
  · split_ifs with ha hb
    · rw [min_eq_right (by linarith), max_eq_left (by linarith)]
    · rw [min_eq_left (by linarith), max_eq_right (by norm_num)]
    · rw [min_eq_right (by linarith), max_eq_right (by linarith)]
  · split_ifs with ha hb
    · exact le_rfl
    · norm_num
    · linarith
  · split_ifs with ha hb
    · norm_num
    · exact le_rfl
    · linarith

/-- C5 witness: the theorem applied at the black daisy and `r = 0.5`. -/
theorem c5_offspring_witness :
    ((0 : ℝ) ≤ 0.5 ∧ (0.5 : ℝ) < 1) ∧
    ((Daisy.black.offspring 0.5).albedo =
        max 0 (min 1 (Daisy.black.albedo +
          Daisy.black.phenotype_volatility * (0.5 - 0.5))) ∧
      0 ≤ (Daisy.black.offspring 0.5).albedo ∧
      (Daisy.black.offspring 0.5).albedo ≤ 1 ∧
      (Daisy.black.offspring 0.5).phenotype_volatility =
        Daisy.black.phenotype_volatility) :=
  ⟨⟨by norm_num, by norm_num⟩,
   c5_offspring Daisy.black 0.5 (by norm_num) (by norm_num)⟩

/-- C1 counterexample: on the grid `cexWorldC1` with `dim = (1, 2)`
(spec naming: width 1, height 2) and both cells occupied, the claim
predicts `above 1` yields the occupant of index `1 - width = 0` (which
is a black daisy) because `1 ≥ width`; the code instead guards with the
second dimension component and returns absent. -/
theorem c1_counterexample :
    cexWorldC1.dim.1 ≤ 1 ∧
    cexWorldC1.at' (1 - cexWorldC1.dim.1) = some Daisy.black ∧
    cexWorldC1.above 1 = none := by
  refine ⟨by decide, ?_, ?_⟩
  · show cexWorldC1.at' 0 = some Daisy.black
    unfold World.at' cexWorldC1
    rw [if_pos (by decide)]
    rfl
  · unfold World.above cexWorldC1
    rw [if_neg (by decide)]

/-- C1 (amended): the neighbour accessors realize the bounded
non-wrapping vertical lattice with the second component of `dim` (the
field the spec names "height") as the row stride, not the first:
`above i` is the occupant of `i - dim.1` (Rust field `dim.1`), absent
exactly when `i < dim.1`; `below i` is the occupant of `i + dim.1`,
absent exactly when `i ≥ size - dim.1`; `left_of i` is the occupant of
`i - 1` for every `i > 0` with no column guard (so at column 0 of any
row but the first it yields the last cell of the previous row);
`right_of i` is the occupant of `i + 1` for every `i < size - 1`. -/
theorem c1_neighbor_accessors (w : World) (i : ℕ) :
    (i < w.dim.2 → w.above i = none) ∧
    (w.dim.2 ≤ i → w.above i = w.at' (i - w.dim.2)) ∧
    (i < w.size - w.dim.2 → w.below i = w.at' (i + w.dim.2)) ∧
    (w.size - w.dim.2 ≤ i → w.below i = none) ∧
    w.left_of 0 = none ∧
    (0 < i → w.left_of i = w.at' (i - 1)) ∧
    (i < w.size - 1 → w.right_of i = w.at' (i + 1)) ∧
    (w.size - 1 ≤ i → w.right_of i = none) := by
  have hat_none : w.size = 0 → ∀ j, w.at' j = none := by
    intro h0 j
    unfold World.at'
    rw [h0]
    simp
  refine ⟨fun h => ?_, fun h => ?_, fun h => ?_, fun h => ?_, ?_, fun h => ?_,
    fun h => ?_, fun h => ?_⟩
  · unfold World.above
    rw [if_neg (by omega)]
  · unfold World.above
    rw [if_pos h]
  · have hle : w.dim.2 ≤ w.size := by omega
    unfold World.below usizeSub
    rw [if_pos hle, if_pos h]
  · by_cases hle : w.dim.2 ≤ w.size
    · unfold World.below usizeSub
      rw [if_pos hle, if_neg (by omega)]
    · have h1 : w.dim.1 = 0 := by
        by_contra hc
        exact hle (by unfold World.size; exact Nat.le_mul_of_pos_left _ (by omega))
      have h0 : w.size = 0 := by
        unfold World.size
        rw [h1]
        ring
      unfold World.below
      split
      · exact hat_none h0 _
      · rfl
  · unfold World.left_of
    rw [if_neg (by omega)]
  · unfold World.left_of
    rw [if_pos h]
  · have hle : 1 ≤ w.size := by omega
    unfold World.right_of usizeSub
    rw [if_pos hle, if_pos h]
  · by_cases hle : 1 ≤ w.size
    · unfold World.right_of usizeSub
      rw [if_pos hle, if_neg (by omega)]
    · have h0 : w.size = 0 := by omega
      unfold World.right_of
      split
      · exact hat_none h0 _
      · rfl

/-- C8 counterexample: on the zero-width grid `cexWorldC8`
(`dim = (0, 1)`, `size = 0`), the guard expressions of `right_of`
(`self.size() - 1`) and of `below` (`self.size() - self.dim.1`) both
underflow `usize` — an arithmetic-overflow panic in a debug build —
refuting the claim that every query on degenerate dimensions evaluates
without integer underflow. -/
theorem c8_counterexample :
    usizeSubUnderflows cexWorldC8.size 1 ∧
    usizeSubUnderflows cexWorldC8.size cexWorldC8.dim.2 := by
  constructor <;> decide

/-- C8 (amended): for every grid with positive width and height, the
queries evaluate without error — the two guard subtractions do not
underflow — and return absent whenever the referenced position is out
of range or the cell is empty. -/
theorem c8_queries_total (w : World) (i : ℕ)
    (h1 : 0 < w.dim.1) (h2 : 0 < w.dim.2) :
    ¬ usizeSubUnderflows w.size 1 ∧
    ¬ usizeSubUnderflows w.size w.dim.2 ∧
    (w.size ≤ i → w.at' i = none) ∧
    (w.daisies.getD i none = none → w.at' i = none) ∧
    (i < w.dim.2 → w.above i = none) ∧
    (usizeSub w.size w.dim.2 ≤ i → w.below i = none) ∧
    w.left_of 0 = none ∧
    (usizeSub w.size 1 ≤ i → w.right_of i = none) := by
  have hsz : w.dim.2 ≤ w.size := by
    unfold World.size
    exact Nat.le_mul_of_pos_left _ h1
  have hsz1 : 1 ≤ w.size := by
    unfold World.size
    exact Nat.one_le_iff_ne_zero.mpr (Nat.mul_ne_zero (by omega) (by omega))
  refine ⟨by unfold usizeSubUnderflows; omega, by unfold usizeSubUnderflows; omega,
    fun h => ?_, fun h => ?_, fun h => ?_, fun h => ?_, ?_, fun h => ?_⟩
  · unfold World.at'
    rw [if_neg (by omega)]
  · unfold World.at'
    split
    · exact h
    · rfl
  · unfold World.above
    rw [if_neg (by omega)]
  · unfold World.below
    rw [if_neg (by omega)]
  · unfold World.left_of
    rw [if_neg (by omega)]
  · unfold World.right_of
    rw [if_neg (by omega)]

/-- C8 witness: the amended theorem applied to the occupied 1×1 grid at
the out-of-range index 5 (and at index 0 for the `above` clause), with
every hypothesis discharged. -/
theorem c8_queries_total_witness :
    (0 < worldOneBlack.dim.1 ∧ 0 < worldOneBlack.dim.2) ∧
    ¬ usizeSubUnderflows worldOneBlack.size 1 ∧
    ¬ usizeSubUnderflows worldOneBlack.size worldOneBlack.dim.2 ∧
    (worldOneBlack.size ≤ 5 ∧ worldOneBlack.at' 5 = none) ∧
    (worldOneBlack.daisies.getD 5 none = none ∧ worldOneBlack.at' 5 = none) ∧
    (0 < worldOneBlack.dim.2 ∧ worldOneBlack.above 0 = none) ∧
    (usizeSub worldOneBlack.size worldOneBlack.dim.2 ≤ 5 ∧
      worldOneBlack.below 5 = none) ∧
    worldOneBlack.left_of 0 = none ∧
    (usizeSub worldOneBlack.size 1 ≤ 5 ∧ worldOneBlack.right_of 5 = none) :=
  ⟨⟨by decide, by decide⟩,
   (c8_queries_total worldOneBlack 5 (by decide) (by decide)).1,
   (c8_queries_total worldOneBlack 5 (by decide) (by decide)).2.1,
   ⟨by decide,
    (c8_queries_total worldOneBlack 5 (by decide) (by decide)).2.2.1 (by decide)⟩,
   ⟨rfl, (c8_queries_total worldOneBlack 5 (by decide) (by decide)).2.2.2.1 rfl⟩,
   ⟨by decide,
    (c8_queries_total worldOneBlack 0 (by decide) (by decide)).2.2.2.2.1 (by decide)⟩,
   ⟨by decide,
    (c8_queries_total worldOneBlack 5 (by decide) (by decide)).2.2.2.2.2.1 (by decide)⟩,
   (c8_queries_total worldOneBlack 5 (by decide) (by decide)).2.2.2.2.2.2.1,
   ⟨by decide,
    (c8_queries_total worldOneBlack 5 (by decide) (by decide)).2.2.2.2.2.2.2 (by decide)⟩⟩

theorem optAlbedo_none : optAlbedo none = 0.5 := rfl

/-- C6: for every grid and cell index `i < size`,
`temperature_field()[i] = (S*L/SB * (1 - a))^0.25` with `S = 917`,
`L = 1`, `SB = 5.67e-8`, where `a` blends the cell's albedo (weight
`1 - 4*0.125`) with the albedos of above/right/left/below (weight
`0.125` each) and every empty or off-grid position contributes `0.5`;
on a 1×1 grid all four neighbour accessors return absent and the single
temperature has all four neighbour terms equal to `0.5`. -/
theorem c6_temperature_field (w : World) (i : ℕ) :
    (i < w.size →
      w.temperature_field.getD i 0 =
        (917.0 * 1.0 / 5.67e-8 *
          (1 - ((1 - 4 * 0.125) * optAlbedo (w.at' i) +
            0.125 * (optAlbedo (w.above i) + optAlbedo (w.right_of i) +
              optAlbedo (w.left_of i) + optAlbedo (w.below i))))) ^ (0.25 : ℝ)) ∧
    (w.dim = (1, 1) →
      w.above 0 = none ∧ w.right_of 0 = none ∧ w.left_of 0 = none ∧
        w.below 0 = none ∧
        w.temperature_field.getD 0 0 =
          (917.0 * 1.0 / 5.67e-8 *
            (1 - ((1 - 4 * 0.125) * optAlbedo (w.at' 0) +
              0.125 * (0.5 + 0.5 + 0.5 + 0.5)))) ^ (0.25 : ℝ)) := by
  have main : ∀ j, j < w.size →
      w.temperature_field.getD j 0 =
        (917.0 * 1.0 / 5.67e-8 *
          (1 - ((1 - 4 * 0.125) * optAlbedo (w.at' j) +
            0.125 * (optAlbedo (w.above j) + optAlbedo (w.right_of j) +
              optAlbedo (w.left_of j) + optAlbedo (w.below j))))) ^ (0.25 : ℝ) := by
    intro j hj
    simp only [World.temperature_field]
    rw [List.getD_eq_getElem?_getD, List.getElem?_map, List.getElem?_map,
      List.getElem?_range hj]
    rfl
  refine ⟨main i, fun hdim => ?_⟩
  have hsz : w.size = 1 := by
    unfold World.size
    rw [hdim]
    rfl
  have habove : w.above 0 = none := by
    unfold World.above
    rw [hdim]
    rw [if_neg (by decide)]
  have hright : w.right_of 0 = none := by
    unfold World.right_of
    rw [hsz]
    rw [if_neg (by decide)]
  have hleft : w.left_of 0 = none := by
    unfold World.left_of
    rw [if_neg (by decide)]
  have hbelow : w.below 0 = none := by
    unfold World.below
    rw [hsz, hdim]
    rw [if_neg (by decide)]
  refine ⟨habove, hright, hleft, hbelow, ?_⟩
  rw [main 0 (by omega), habove, hright, hleft, hbelow, optAlbedo_none]

/-- C6 witness: the theorem applied to the empty 1×1 grid at index 0. -/
theorem c6_temperature_field_witness :
    0 < worldOneEmpty.size ∧ worldOneEmpty.dim = (1, 1) ∧
    worldOneEmpty.temperature_field.getD 0 0 =
      (917.0 * 1.0 / 5.67e-8 *
        (1 - ((1 - 4 * 0.125) * optAlbedo (worldOneEmpty.at' 0) +
          0.125 * (optAlbedo (worldOneEmpty.above 0) +
            optAlbedo (worldOneEmpty.right_of 0) +
            optAlbedo (worldOneEmpty.left_of 0) +
            optAlbedo (worldOneEmpty.below 0))))) ^ (0.25 : ℝ) ∧
    (worldOneEmpty.above 0 = none ∧ worldOneEmpty.right_of 0 = none ∧
      worldOneEmpty.left_of 0 = none ∧ worldOneEmpty.below 0 = none ∧
      worldOneEmpty.temperature_field.getD 0 0 =
        (917.0 * 1.0 / 5.67e-8 *
          (1 - ((1 - 4 * 0.125) * optAlbedo (worldOneEmpty.at' 0) +
            0.125 * (0.5 + 0.5 + 0.5 + 0.5)))) ^ (0.25 : ℝ)) :=
  ⟨by decide, rfl, (c6_temperature_field worldOneEmpty 0).1 (by decide),
   (c6_temperature_field worldOneEmpty 0).2 rfl⟩

/-- C7: for every world whose cells sequence has length width*height,
`iterate` returns a world with the same `dim`, the same `death_rate`,
and a cells sequence again of length width*height. -/
theorem c7_iterate_invariants (w : World) (s : ℕ → ℝ) (n : ℕ)
    (hlen : w.daisies.length = w.dim.1 * w.dim.2) :
    (w.iterate s n).1.dim = w.dim ∧
    (w.iterate s n).1.death_rate = w.death_rate ∧
    (w.iterate s n).1.daisies.length = w.dim.1 * w.dim.2 := by
  rw [iterate_def]
  refine ⟨rfl, rfl, ?_⟩
  show (deathAux w.death_rate s w.size 0 (w.reproPass s n).1
    (w.reproPass s n).2).1.length = w.dim.1 * w.dim.2
  rw [deathAux_length]
  unfold World.reproPass
  rw [reproAux_length]
  exact hlen

/-- C7 witness: the theorem applied to the occupied 1×1 grid. -/
theorem c7_iterate_invariants_witness :
    worldOneBlack.daisies.length = worldOneBlack.dim.1 * worldOneBlack.dim.2 ∧
    ((worldOneBlack.iterate halfStream 0).1.dim = worldOneBlack.dim ∧
      (worldOneBlack.iterate halfStream 0).1.death_rate = worldOneBlack.death_rate ∧
      (worldOneBlack.iterate halfStream 0).1.daisies.length =
        worldOneBlack.dim.1 * worldOneBlack.dim.2) :=
  ⟨rfl, c7_iterate_invariants worldOneBlack halfStream 0 rfl⟩

/-- C9: `new_randomized` with a source that returns a constant `r ≥ 0.2`
on every draw produces an all-empty grid, and `iterate` on an all-empty
grid with any draw sequence in `[0,1)` returns an all-empty grid. -/
theorem c9_empty_absorbing :
    (∀ (dim : ℕ × ℕ) (dr r : ℝ) (s : ℕ → ℝ) (n : ℕ),
      (∀ k, s k = r) → 0.2 ≤ r →
      ∀ o ∈ (World.new_randomized dim dr s n).1.daisies, o = none) ∧
    (∀ (w : World) (s : ℕ → ℝ) (n : ℕ),
      (∀ o ∈ w.daisies, o = none) → (∀ k, 0 ≤ s k ∧ s k < 1) →
      ∀ o ∈ (w.iterate s n).1.daisies, o = none) := by
  constructor
  · intro dim dr r s n hs hr o ho
    simp only [World.new_randomized] at ho
    rw [List.mem_map] at ho
    obtain ⟨k, _, rfl⟩ := ho
    unfold new_daisy_opt
    rw [hs, if_neg (by linarith), if_neg (by linarith)]
  · intro w s n hw _ o ho
    simp only [iterate_def] at ho
    refine deathAux_all_none w.death_rate s w.size 0 _ _ ?_ o ho
    show ∀ o ∈ (w.reproPass s n).1, o = none
    unfold World.reproPass
    exact reproAux_all_none w w.temperature_field s w.size hw 0 w.daisies n hw

/-- Constant stream returning `0.3` (at and above the white threshold `0.2`). -/
def constStream03 : ℕ → ℝ := fun _ => 0.3

/-- C9 witness: part one applied at `dim = (1,1)` with the constant
source `0.3 ≥ 0.2`; part two applied to the empty 1×1 grid with the
constant source `0.5 ∈ [0,1)`. -/
theorem c9_empty_absorbing_witness :
    ((∀ k, constStream03 k = 0.3) ∧ (0.2 : ℝ) ≤ 0.3 ∧
      ∀ o ∈ (World.new_randomized (1, 1) 0.3 constStream03 0).1.daisies, o = none) ∧
    ((∀ o ∈ worldOneEmpty.daisies, o = none) ∧
      (∀ k, 0 ≤ halfStream k ∧ halfStream k < 1) ∧
      ∀ o ∈ (worldOneEmpty.iterate halfStream 0).1.daisies, o = none) :=
  ⟨⟨fun _ => rfl, by norm_num,
    c9_empty_absorbing.1 (1, 1) 0.3 0.3 constStream03 0 (fun _ => rfl) (by norm_num)⟩,
   ⟨by simp [worldOneEmpty],
    fun k => ⟨by norm_num [halfStream], by norm_num [halfStream]⟩,
    c9_empty_absorbing.2 worldOneEmpty halfStream 0 (by simp [worldOneEmpty])
      (fun k => ⟨by norm_num [halfStream], by norm_num [halfStream]⟩)⟩⟩

theorem reproPass_getD_decision (w : World) (s : ℕ → ℝ) (n j : ℕ)
    (hlen : w.daisies.length = w.size) (hj : j < w.size) :
    (w.reproPass s n).1.getD j none =
      reproDecision w w.temperature_field s j
        ((reproAux w w.temperature_field s j 0 w.daisies n).2) := by
  show (reproAux w w.temperature_field s w.size 0 w.daisies n).1.getD j none = _
  have h := reproAux_getD_eq w w.temperature_field s w.size 0 w.daisies n j
    (by omega) (by omega) (by omega) rfl
  rwa [Nat.sub_zero] at h

/-- C3: `iterate` is one two-pass transition.  (a) A cell occupied in
`G` is not modified by the reproduction pass — its occupant carries
over.  (b) The value each cell holds after the reproduction pass is the
per-cell decision `reproDecision`, computed from the generation-k grid
`G` and its temperature field only (never from already-updated cells),
at the stream position the preceding cells determine.  (c) The death
pass clears a cell occupied after reproduction (carried over or
newborn) exactly when its death draw is below the global `death_rate`,
and leaves it unchanged otherwise. -/
theorem c3_two_pass (w : World) (s : ℕ → ℝ) (n j : ℕ)
    (hlen : w.daisies.length = w.size) (hj : j < w.size) :
    ((w.daisies.getD j none).isSome →
      (w.reproPass s n).1.getD j none = w.daisies.getD j none) ∧
    ((w.reproPass s n).1.getD j none =
      reproDecision w w.temperature_field s j
        ((reproAux w w.temperature_field s j 0 w.daisies n).2)) ∧
    ((w.iterate s n).1.daisies.getD j none =
      if ((w.reproPass s n).1.getD j none).isSome ∧
          s ((deathAux w.death_rate s j 0 (w.reproPass s n).1
            (w.reproPass s n).2).2) < w.death_rate then
        none
      else
        (w.reproPass s n).1.getD j none) := by
  have hdec := reproPass_getD_decision w s n j hlen hj
  refine ⟨?_, hdec, ?_⟩
  · intro hS
    obtain ⟨d, hd⟩ := Option.isSome_iff_exists.mp hS
    rw [hdec, reproDecision_occ _ _ _ _ _ d hd, hd]
  · have h := deathAux_getD_eq w.death_rate s w.size 0 (w.reproPass s n).1
      (w.reproPass s n).2 j (by omega) (by omega)
    rw [Nat.sub_zero] at h
    show (deathAux w.death_rate s w.size 0 (w.reproPass s n).1
      (w.reproPass s n).2).1.getD j none = _
    exact h

/-- C3 witness: the theorem applied to the two-cell grid `cexWorldC2`
at the occupied cell 0, with the all-zero stream. -/
theorem c3_two_pass_witness :
    cexWorldC2.daisies.length = cexWorldC2.size ∧ 0 < cexWorldC2.size ∧
    (cexWorldC2.reproPass zeroStream 0).1.getD 0 none =
      cexWorldC2.daisies.getD 0 none ∧
    ((cexWorldC2.reproPass zeroStream 0).1.getD 0 none =
      reproDecision cexWorldC2 cexWorldC2.temperature_field zeroStream 0
        ((reproAux cexWorldC2 cexWorldC2.temperature_field zeroStream 0 0
          cexWorldC2.daisies 0).2)) ∧
    ((cexWorldC2.iterate zeroStream 0).1.daisies.getD 0 none =
      if ((cexWorldC2.reproPass zeroStream 0).1.getD 0 none).isSome ∧
          zeroStream ((deathAux cexWorldC2.death_rate zeroStream 0 0
            (cexWorldC2.reproPass zeroStream 0).1
            (cexWorldC2.reproPass zeroStream 0).2).2) < cexWorldC2.death_rate then
        none
      else
        (cexWorldC2.reproPass zeroStream 0).1.getD 0 none) :=
  ⟨rfl, by decide,
   (c3_two_pass cexWorldC2 zeroStream 0 0 rfl (by decide)).1 (by decide),
   (c3_two_pass cexWorldC2 zeroStream 0 0 rfl (by decide)).2.1,
   (c3_two_pass cexWorldC2 zeroStream 0 0 rfl (by decide)).2.2⟩

/-- C10: when every draw is nonnegative (in particular for draws in
`[0,1)`), the reproduction pass never clears a cell (occupied stays
occupied), every cell it changes receives a present daisy, and at an
empty cell whose chosen neighbour is absent the acceptance test
`draw < 0.0` fails, so the pass leaves the grid untouched there — the
branch that would store an absent `neighbour.map(offspring)` is
unreachable. -/
theorem c10_repro_pass_safe (w : World) (s : ℕ → ℝ) (n j : ℕ)
    (hs : ∀ k, 0 ≤ s k) (hlen : w.daisies.length = w.size) (hj : j < w.size) :
    ((w.daisies.getD j none).isSome →
      ((w.reproPass s n).1.getD j none).isSome) ∧
    ((w.reproPass s n).1.getD j none = w.daisies.getD j none ∨
      ((w.reproPass s n).1.getD j none).isSome) ∧
    (∀ (ds : List (Option Daisy)) (m : ℕ),
      w.daisies.getD j none = none → chooseNeighbour w j (s m) = none →
      (reproStep w w.temperature_field s j ds m).1 = ds) := by
  have hdec := reproPass_getD_decision w s n j hlen hj
  refine ⟨?_, ?_, ?_⟩
  · intro hS
    obtain ⟨d, hd⟩ := Option.isSome_iff_exists.mp hS
    rw [hdec, reproDecision_occ _ _ _ _ _ d hd]
    rfl
  · rw [hdec]
    rcases ho : w.daisies.getD j none with _ | d
    · set m := (reproAux w w.temperature_field s j 0 w.daisies n).2 with hm
      rcases hnb : chooseNeighbour w j (s m) with _ | d
      · rw [reproDecision_empty_none w w.temperature_field s j m ho hnb]
        exact Or.inl rfl
      · rw [reproDecision_empty_some w w.temperature_field s j m d ho hnb]
        split
        · exact Or.inr rfl
        · exact Or.inl rfl
    · rw [reproDecision_occ _ _ _ _ _ d ho]
      exact Or.inr rfl
  · intro ds m ho hnb
    rw [reproStep_empty_none w w.temperature_field s j ds m ho hnb,
      if_neg (not_lt.mpr (hs (m + 1)))]

/-- C10 witness: the theorem applied to the two-cell grid `cexWorldC2`
at the occupied cell 0, with the constant stream `0.5 ≥ 0`. -/
theorem c10_repro_pass_safe_witness :
    (∀ k, 0 ≤ halfStream k) ∧ cexWorldC2.daisies.length = cexWorldC2.size ∧
    0 < cexWorldC2.size ∧
    ((cexWorldC2.reproPass halfStream 0).1.getD 0 none).isSome ∧
    ((cexWorldC2.reproPass halfStream 0).1.getD 0 none =
        cexWorldC2.daisies.getD 0 none ∨
      ((cexWorldC2.reproPass halfStream 0).1.getD 0 none).isSome) :=
  ⟨fun k => by norm_num [halfStream], rfl, by decide,
   (c10_repro_pass_safe cexWorldC2 halfStream 0 0
     (fun k => by norm_num [halfStream]) rfl (by decide)).1 (by decide),
   (c10_repro_pass_safe cexWorldC2 halfStream 0 0
     (fun k => by norm_num [halfStream]) rfl (by decide)).2.1⟩

theorem temperature_field_getD (w : World) (j : ℕ) (hj : j < w.size) :
    w.temperature_field.getD j 0 =
      (917.0 * 1.0 / 5.67e-8 *
        (1 - ((1 - 4 * 0.125) * optAlbedo (w.at' j) +
          0.125 * (optAlbedo (w.above j) + optAlbedo (w.right_of j) +
            optAlbedo (w.left_of j) + optAlbedo (w.below j))))) ^ (0.25 : ℝ) := by
  simp only [World.temperature_field]
  rw [List.getD_eq_getElem?_getD, List.getElem?_map, List.getElem?_map,
    List.getElem?_range hj]
  rfl

theorem emptyIdxCount_eq (w : World) :
    emptyIdxCount w =
      (List.range' 0 w.size).countP (fun j => (w.daisies.getD j none).isNone) := by
  unfold emptyIdxCount
  rw [← List.countP_eq_length_filter, List.range_eq_range']

theorem occIdxCount_eq (size : ℕ) (ds : List (Option Daisy)) :
    occIdxCount size ds =
      (List.range' 0 size).countP (fun j => (ds.getD j none).isSome) := by
  unfold occIdxCount
  rw [← List.countP_eq_length_filter, List.range_eq_range']

theorem newbornCount_eq (size : ℕ) (old new : List (Option Daisy)) :
    newbornCount size old new =
      (List.range' 0 size).countP
        (fun j => (old.getD j none).isNone && ((new.getD j none).isSome)) := by
  unfold newbornCount
  rw [← List.countP_eq_length_filter, List.range_eq_range']

/-- C2 (amended): with the random source an explicit draw sequence,
`iterate` is a deterministic function of the grid and the draws it
consumes — agreeing sequences give equal results — consuming, in
row-major cell order, two draws per cell empty in the old grid
(neighbour choice by quartiles, then accept/reject, the latter consumed
even when the chosen neighbour is absent), **plus one further draw
inside `offspring` for every successful birth**, and then one draw per
cell occupied after the reproduction pass. -/
theorem c2_iterate_deterministic (w : World) (s1 s2 : ℕ → ℝ) (n : ℕ)
    (hlen : w.daisies.length = w.size) :
    ((∀ k, n ≤ k → k < (w.iterate s1 n).2 → s1 k = s2 k) →
      w.iterate s1 n = w.iterate s2 n) ∧
    (w.iterate s1 n).2 = n + 2 * emptyIdxCount w
      + newbornCount w.size w.daisies (w.reproPass s1 n).1
      + occIdxCount w.size (w.reproPass s1 n).1 ∧
    (∀ (i : ℕ) (r : ℝ),
      (r < 0.25 → chooseNeighbour w i r = w.above i) ∧
      (0.25 ≤ r → r < 0.5 → chooseNeighbour w i r = w.right_of i) ∧
      (0.5 ≤ r → r < 0.75 → chooseNeighbour w i r = w.below i) ∧
      (0.75 ≤ r → chooseNeighbour w i r = w.left_of i)) := by
  have hit1 : ∀ t : ℕ → ℝ, (w.iterate t n).2 =
      (deathAux w.death_rate t w.size 0
        (reproAux w w.temperature_field t w.size 0 w.daisies n).1
        (reproAux w w.temperature_field t w.size 0 w.daisies n).2).2 :=
    fun _ => rfl
  refine ⟨?_, ?_, ?_⟩
  · intro h
    have hRge : n ≤ (reproAux w w.temperature_field s1 w.size 0 w.daisies n).2 :=
      reproAux_snd_ge w w.temperature_field s1 w.size 0 w.daisies n
    have hDge : (reproAux w w.temperature_field s1 w.size 0 w.daisies n).2 ≤
        (w.iterate s1 n).2 := by
      rw [hit1 s1]
      exact deathAux_snd_ge w.death_rate s1 w.size 0 _ _
    have hR : reproAux w w.temperature_field s1 w.size 0 w.daisies n =
        reproAux w w.temperature_field s2 w.size 0 w.daisies n := by
      refine reproAux_agree w w.temperature_field s1 s2 w.size 0 w.daisies n ?_
      intro k hk1 hk2
      exact h k hk1 (by omega)
    have hD : deathAux w.death_rate s1 w.size 0
        (reproAux w w.temperature_field s1 w.size 0 w.daisies n).1
        (reproAux w w.temperature_field s1 w.size 0 w.daisies n).2 =
        deathAux w.death_rate s2 w.size 0
          (reproAux w w.temperature_field s1 w.size 0 w.daisies n).1
          (reproAux w w.temperature_field s1 w.size 0 w.daisies n).2 := by
      refine deathAux_agree w.death_rate s1 s2 w.size 0 _ _ ?_
      intro k hk1 hk2
      refine h k (by omega) ?_
      rw [hit1 s1]
      exact hk2
    rw [iterate_def w s1 n, iterate_def w s2 n]
    unfold World.reproPass
    rw [← hR, hD]
  · unfold World.reproPass
    rw [hit1 s1, deathAux_snd_count w.death_rate s1 w.size 0 _ _,
      reproAux_snd_count w w.temperature_field s1 w.size 0 w.daisies n
        (by omega) (fun k _ => rfl),
      emptyIdxCount_eq, newbornCount_eq, occIdxCount_eq]
  · intro i r
    unfold chooseNeighbour
    refine ⟨fun h1 => ?_, fun h1 h2 => ?_, fun h1 h2 => ?_, fun h1 => ?_⟩
    · rw [if_pos h1]
    · rw [if_neg (not_lt.mpr h1), if_pos h2]
    · rw [if_neg (not_lt.mpr (le_trans (by norm_num) h1)),
        if_neg (not_lt.mpr h1), if_pos h2]
    · rw [if_neg (not_lt.mpr (le_trans (by norm_num) h1)),
        if_neg (not_lt.mpr (le_trans (by norm_num) h1)),
        if_neg (not_lt.mpr h1)]

/-- C2 witness: the amended theorem applied to the occupied 1×1 grid
with two equal copies of the constant stream `0.5`, and its quartile
clause at `r = 0.1`. -/
theorem c2_iterate_deterministic_witness :
    worldOneBlack.daisies.length = worldOneBlack.size ∧
    worldOneBlack.iterate halfStream 0 = worldOneBlack.iterate halfStream 0 ∧
    (worldOneBlack.iterate halfStream 0).2 = 0 + 2 * emptyIdxCount worldOneBlack
      + newbornCount worldOneBlack.size worldOneBlack.daisies
          (worldOneBlack.reproPass halfStream 0).1
      + occIdxCount worldOneBlack.size (worldOneBlack.reproPass halfStream 0).1 ∧
    ((0.1 : ℝ) < 0.25 ∧
      chooseNeighbour worldOneBlack 0 0.1 = worldOneBlack.above 0) :=
  ⟨rfl,
   (c2_iterate_deterministic worldOneBlack halfStream halfStream 0 rfl).1
     (fun _ _ _ => rfl),
   (c2_iterate_deterministic worldOneBlack halfStream halfStream 0 rfl).2.1,
   by norm_num,
   ((c2_iterate_deterministic worldOneBlack halfStream halfStream 0 rfl).2.2 0 0.1).1
     (by norm_num)⟩

theorem cexC2_tf1 : cexWorldC2.temperature_field.getD 1 0 =
    (917.0 * 1.0 / 5.67e-8 *
      (1 - ((1 - 4 * 0.125) * 0.5 +
        0.125 * (0.25 + 0.5 + 0.25 + 0.5)))) ^ (0.25 : ℝ) := by
  rw [temperature_field_getD cexWorldC2 1 (by decide)]
  rfl

theorem cexC2_accept :
    zeroStream 1 <
      Daisy.black.reproduce_prob (cexWorldC2.temperature_field.getD 1 0) := by
  have hband : 278 < cexWorldC2.temperature_field.getD 1 0 ∧
      cexWorldC2.temperature_field.getD 1 0 < 313 := by
    rw [cexC2_tf1]
    exact rpow_quarter_bounds (by norm_num) (by norm_num) (by norm_num) (by norm_num)
  have h := reproduce_prob_pos Daisy.black _ hband.1 hband.2
  simpa [zeroStream] using h

theorem cexC2_repro : cexWorldC2.reproPass zeroStream 0 =
    ([some Daisy.black, some (Daisy.black.offspring (zeroStream 2))], 3) := by
  have hnb : chooseNeighbour cexWorldC2 1 (zeroStream 0) = some Daisy.black := by
    unfold chooseNeighbour
    rw [if_pos (show zeroStream 0 < 0.25 by norm_num [zeroStream])]
    rfl
  have hstep0 : reproStep cexWorldC2 cexWorldC2.temperature_field zeroStream 0
      cexWorldC2.daisies 0 = (cexWorldC2.daisies, 0) :=
    reproStep_occ _ _ _ _ _ _ Daisy.black rfl
  have hstep1 : reproStep cexWorldC2 cexWorldC2.temperature_field zeroStream 1
      cexWorldC2.daisies 0 =
      (cexWorldC2.daisies.set 1 (some (Daisy.black.offspring (zeroStream 2))), 3) := by
    rw [reproStep_empty_some cexWorldC2 cexWorldC2.temperature_field zeroStream 1
      cexWorldC2.daisies 0 Daisy.black rfl hnb, if_pos cexC2_accept]
  show reproAux cexWorldC2 cexWorldC2.temperature_field zeroStream
    cexWorldC2.size 0 cexWorldC2.daisies 0 = _
  rw [show cexWorldC2.size = 0 + 1 + 1 from rfl]
  simp only [reproAux]
  rw [hstep0]
  dsimp only
  rw [hstep1]
  rfl

/-- C2 counterexample: on the two-cell grid `cexWorldC2` with the
all-zero draw sequence (all draws in `[0,1)`), the empty cell 1
successfully reproduces, so `Daisy::offspring` consumes an extra draw:
`iterate` advances the stream position by 5, not by
`2·(empty cells of G) + (cells occupied after the reproduction pass)
 = 2·1 + 2 = 4` as the claim's draw accounting predicts. -/
theorem c2_counterexample :
    (cexWorldC2.iterate zeroStream 0).2 ≠
      0 + 2 * emptyIdxCount cexWorldC2
        + occIdxCount cexWorldC2.size (cexWorldC2.reproPass zeroStream 0).1 := by
  have hit2 : (cexWorldC2.iterate zeroStream 0).2 =
      (deathAux cexWorldC2.death_rate zeroStream cexWorldC2.size 0
        (cexWorldC2.reproPass zeroStream 0).1
        (cexWorldC2.reproPass zeroStream 0).2).2 := rfl
  rw [hit2, cexC2_repro]
  dsimp only
  rw [deathAux_snd_count]
  decide

/-- C1 witness: the amended accessor theorem applied to the occupied
1-column grid `cexWorldC1` (dim (1,2)) at index 1 and to the 1-row grid
`cexWorldC2` (dim (2,1)) at indices 1 and 0, with every hypothesis
discharged. -/
theorem c1_neighbor_accessors_witness :
    (1 < cexWorldC1.dim.2 ∧ cexWorldC1.above 1 = none) ∧
    (cexWorldC1.size - cexWorldC1.dim.2 ≤ 1 ∧ cexWorldC1.below 1 = none) ∧
    cexWorldC1.left_of 0 = none ∧
    (0 < 1 ∧ cexWorldC1.left_of 1 = cexWorldC1.at' (1 - 1)) ∧
    (cexWorldC1.size - 1 ≤ 1 ∧ cexWorldC1.right_of 1 = none) ∧
    (cexWorldC2.dim.2 ≤ 1 ∧
      cexWorldC2.above 1 = cexWorldC2.at' (1 - cexWorldC2.dim.2)) ∧
    (0 < cexWorldC2.size - cexWorldC2.dim.2 ∧
      cexWorldC2.below 0 = cexWorldC2.at' (0 + cexWorldC2.dim.2)) ∧
    (0 < cexWorldC2.size - 1 ∧ cexWorldC2.right_of 0 = cexWorldC2.at' (0 + 1)) :=
  ⟨⟨by decide, (c1_neighbor_accessors cexWorldC1 1).1 (by decide)⟩,
   ⟨by decide, (c1_neighbor_accessors cexWorldC1 1).2.2.2.1 (by decide)⟩,
   (c1_neighbor_accessors cexWorldC1 1).2.2.2.2.1,
   ⟨by decide, (c1_neighbor_accessors cexWorldC1 1).2.2.2.2.2.1 (by decide)⟩,
   ⟨by decide, (c1_neighbor_accessors cexWorldC1 1).2.2.2.2.2.2.2 (by decide)⟩,
   ⟨by decide, (c1_neighbor_accessors cexWorldC2 1).2.1 (by decide)⟩,
   ⟨by decide, (c1_neighbor_accessors cexWorldC2 0).2.2.1 (by decide)⟩,
   ⟨by decide, (c1_neighbor_accessors cexWorldC2 0).2.2.2.2.2.2.1 (by decide)⟩⟩
